import Mathlib

/-!
Verification of the `crshow` repository, file
`.github/scripts/update_stats.py`: a shallow embedding of the media-link
classifier, the snapshot reader, the header rewriter and the run
orchestrator, together with theorems settling the specification claims.

Text content is modelled as `List Char`.  Python `str.splitlines` is
modelled on the line terminators `\n`, `\r\n` and `\r`; Python
`str.strip` is modelled on the ASCII whitespace characters it strips.
-/

set_option autoImplicit false

namespace Crshow

abbrev Chars := List Char

def lf : Chars := ['\n']

def crlf : Chars := ['\r', '\n']

/-- Whitespace as stripped by Python `str.strip()` (ASCII range). -/
def pyIsSpace (c : Char) : Bool :=
  c = ' ' || c = '\t' || c = '\n' || c = '\r' || c = '\x0b' || c = '\x0c'

def lstrip (l : Chars) : Chars := l.dropWhile pyIsSpace

def rstrip (l : Chars) : Chars := (l.reverse.dropWhile pyIsSpace).reverse

/-- Python `line.strip()`. -/
def strip (l : Chars) : Chars := rstrip (lstrip l)

/-- Python `s.startswith(p)`. -/
def pyStartsWith : Chars → Chars → Bool
  | [], _ => true
  | _ :: _, [] => false
  | p :: ps, c :: cs => p == c && pyStartsWith ps cs

/-- Python `not line.strip()`: the line is empty or all whitespace. -/
def isBlank (l : Chars) : Bool := (strip l).isEmpty

/-- Python `needle in hay` for strings (substring containment). -/
def containsSeq (needle : Chars) : Chars → Bool
  | [] => pyStartsWith needle []
  | c :: rest => pyStartsWith needle (c :: rest) || containsSeq needle rest

/-- The line holds neither a carriage return nor a line feed. -/
def noNL (l : Chars) : Bool := l.all (fun c => !(c == '\r') && !(c == '\n'))

/-- Python `sep.join(lines)`. -/
def joinSep (sep : Chars) : List Chars → Chars
  | [] => []
  | [l] => l
  | l :: l2 :: ls => l ++ sep ++ joinSep sep (l2 :: ls)

/-- Python `content.splitlines()` on the terminators `\n`, `\r\n`, `\r`. -/
def splitlines : Chars → List Chars
  | [] => []
  | c :: rest =>
    if c = '\n' then [] :: splitlines rest
    else if c = '\r' then
      match rest with
      | [] => [[]]
      | c2 :: rest2 =>
        if c2 = '\n' then [] :: splitlines rest2
        else [] :: splitlines (c2 :: rest2)
    else
      match splitlines rest with
      | [] => [[c]]
      | l :: ls => (c :: l) :: ls

/-! ### Classifier — `count_media_entries` (update_stats.py lines 18-35) -/

inductive MediaCat where
  | m3u8
  | mp4
  | other
deriving DecidableEq

/-- Category counters, the `stats` dict of `count_media_entries`. -/
structure MediaStats where
  m3u8 : Nat
  mp4 : Nat
  other : Nat
deriving DecidableEq

/-- Boundary of the regexes `\.m3u8(\?|$|/)` and `\.mp4(\?|$|/)`: the
extension is followed by end of line, a question mark or a slash. -/
def extBoundary (rest : Chars) : Bool :=
  rest.isEmpty || rest.head? == some '?' || rest.head? == some '/'

def matchesAt (pat l : Chars) : Bool :=
  pyStartsWith pat l && extBoundary (l.drop pat.length)

/-- Python `re.search`: try the pattern at every start position. -/
def searchPat (pat : Chars) : Chars → Bool
  | [] => matchesAt pat []
  | c :: rest => matchesAt pat (c :: rest) || searchPat pat rest

/-- Case-insensitive search (`re.IGNORECASE`): lowercase the line first;
the stored patterns are already lowercase. -/
def searchCI (pat l : Chars) : Bool := searchPat pat (l.map Char.toLower)

def patM3u8 : Chars := ".m3u8".data

def patMp4 : Chars := ".mp4".data

/-- Per-line decision of `count_media_entries`: `none` when the line is
skipped (blank or comment), otherwise the first matching category. -/
def classifyLine (line : Chars) : Option MediaCat :=
  let l := strip line
  if l.isEmpty || pyStartsWith ['#'] l then none
  else if searchCI patM3u8 l then some .m3u8
  else if searchCI patMp4 l then some .mp4
  else some .other

/-- A line the classifier counts: non-blank after trimming and not
starting with the comment sentinel `#`. -/
def countedLine (l : Chars) : Bool :=
  !((strip l).isEmpty || pyStartsWith ['#'] (strip l))

def bump (st : MediaStats) : Option MediaCat → MediaStats
  | none => st
  | some .m3u8 => ⟨st.m3u8 + 1, st.mp4, st.other⟩
  | some .mp4 => ⟨st.m3u8, st.mp4 + 1, st.other⟩
  | some .other => ⟨st.m3u8, st.mp4, st.other + 1⟩

/-- `count_media_entries(content)`. -/
def count_media_entries (content : Chars) : MediaStats :=
  (splitlines content).foldl (fun st line => bump st (classifyLine line)) ⟨0, 0, 0⟩

/-! ### Delta formatting — `format_change` (lines 50-56) -/

def digitChar (d : Nat) : Char :=
  if d = 0 then '0' else if d = 1 then '1' else if d = 2 then '2'
  else if d = 3 then '3' else if d = 4 then '4' else if d = 5 then '5'
  else if d = 6 then '6' else if d = 7 then '7' else if d = 8 then '8'
  else '9'

def natStrAux : Nat → Nat → Chars → Chars
  | 0, _, acc => acc
  | fuel + 1, n, acc =>
    if n < 10 then digitChar n :: acc
    else natStrAux fuel (n / 10) (digitChar (n % 10) :: acc)

/-- Decimal rendering of a natural number, Python `str(n)` for `n ≥ 0`. -/
def natStr (n : Nat) : Chars := natStrAux (n + 1) n []

/-- Python `str(i)` for an integer. -/
def intStr (i : Int) : Chars :=
  if i < 0 then '-' :: natStr i.natAbs else natStr i.natAbs

/-- `format_change(change)`: `+2`, `-1`, `0`. -/
def format_change (change : Int) : Chars :=
  if 0 < change then '+' :: intStr change
  else if change < 0 then intStr change
  else "0".data

/-! ### Header rewriter — `update_file_header` (lines 58-101) -/

/-- Python `line.strip().startswith("# STATS:")`. -/
def isStatsLine (l : Chars) : Bool := pyStartsWith ("# STATS:".data) (strip l)

/-- The removal loop of `update_file_header` (lines 66-76): the flag is
`skip_until_empty_line`. -/
def removeStatsAux : Bool → List Chars → List Chars
  | _, [] => []
  | skip, l :: ls =>
    if isStatsLine l then removeStatsAux true ls
    else if skip then
      (if isBlank l then removeStatsAux false ls else removeStatsAux true ls)
    else l :: removeStatsAux skip ls

def removeStats (ls : List Chars) : List Chars := removeStatsAux false ls

/-- A validated previous snapshot: the two category fields
`update_file_header` subtracts (lines 81-83). -/
structure PrevCounts where
  m3u8 : Int
  mp4 : Int
deriving DecidableEq

/-- `changes.get('m3u8', 0)` after the loop on lines 80-83: the delta when
a previous snapshot is present, otherwise the default `0`. -/
def changeM3u8 (cur : MediaStats) (prev : Option PrevCounts) : Int :=
  match prev with
  | some p => (cur.m3u8 : Int) - p.m3u8
  | none => 0

def changeMp4 (cur : MediaStats) (prev : Option PrevCounts) : Int :=
  match prev with
  | some p => (cur.mp4 : Int) - p.mp4
  | none => 0

/-- The `stats_lines` list built on lines 89-96. -/
def statsLines (cur : MediaStats) (prev : Option PrevCounts)
    (timestamp : Chars) : List Chars :=
  [ "# STATS: Media Links Summary".data,
    "# Updated: ".data ++ timestamp ++ " (UTC+8)".data,
    "# M3U8: ".data ++ natStr cur.m3u8 ++ " (Change: ".data
      ++ format_change (changeM3u8 cur prev) ++ [')'],
    "# MP4: ".data ++ natStr cur.mp4 ++ " (Change: ".data
      ++ format_change (changeMp4 cur prev) ++ [')'],
    '#' :: List.replicate 50 '=',
    [] ]

/-- Line 99: `newline = "\r\n" if "\r\n" in content else "\n"`. -/
def detectNewline (content : Chars) : Chars :=
  if containsSeq crlf content then crlf else lf

/-- The pure content transformation of `update_file_header` (lines 66-100):
remove old stats lines, then prepend the new block, keeping the newline
style of the original content. -/
def update_file_header (content : Chars) (cur : MediaStats)
    (prev : Option PrevCounts) (timestamp : Chars) : Chars :=
  let lines := removeStats (splitlines content)
  let nl := detectNewline content
  joinSep nl (statsLines cur prev timestamp) ++ nl ++ joinSep nl lines

/-- All lines of the rewritten content, in order: the new header block
followed by the retained body lines (a single empty line stands for the
join of an empty body). -/
def renderedLines (content : Chars) (cur : MediaStats)
    (prev : Option PrevCounts) (t : Chars) : List Chars :=
  statsLines cur prev t
    ++ (if (removeStats (splitlines content)).isEmpty then [([] : Chars)]
        else removeStats (splitlines content))

/-- The retained body either is empty or ends in a non-empty line. -/
def lastLineOk (ls : List Chars) : Bool :=
  match ls.getLast? with
  | none => true
  | some l => !l.isEmpty

/-! ### Specification-side removal pass, for the frame-effect claim: any
run starting at a `# STATS:` sentinel line is dropped up to and including
the next blank line or the end of content. -/

def skipRun : List Chars → List Chars
  | [] => []
  | l :: ls => if isBlank l then ls else skipRun ls

def dropHeaderRuns : List Chars → List Chars
  | [] => []
  | l :: ls =>
    if isStatsLine l then dropHeaderRuns (skipRun ls) else l :: dropHeaderRuns ls
termination_by ls => ls.length
decreasing_by
· have hlen : ∀ ms : List Chars, (skipRun ms).length ≤ ms.length := by
    intro ms
    induction ms with
    | nil => simp [skipRun]
    | cons m ms ih =>
      simp only [skipRun]
      split
      · exact Nat.le_succ _
      · exact Nat.le_trans ih (Nat.le_succ _)
  exact Nat.lt_succ_of_le (hlen ls)
· exact Nat.lt_succ_of_le (Nat.le_refl ls.length)

/-! ### Snapshot reader — `get_previous_stats` (lines 37-48) -/

/-- Parsed JSON values, the possible results of `json.loads`. -/
inductive Json where
  | null
  | bool (b : Bool)
  | num (n : Int)
  | str (s : Chars)
  | arr (elems : List Json)
  | obj (entries : List (Chars × Json))

def typeErrMsg : Chars := "TypeError: argument is not iterable".data

/-- Python `k in data` for a parsed JSON value: key membership for a dict,
element equality for a list, substring test for a string, and a
`TypeError` (modelled as `Except.error`) for any other value. -/
def pyIn (k : Chars) : Json → Except Chars Bool
  | .obj entries => .ok (entries.any (fun kv => kv.1 == k))
  | .arr elems =>
    .ok (elems.any (fun j => match j with | .str s => s == k | _ => false))
  | .str s => .ok (containsSeq k s)
  | _ => .error typeErrMsg

/-- What the snapshot file gives back: missing file, a decode failure
(`UnicodeDecodeError`), a parse failure (`json.JSONDecodeError`), or a
parsed JSON value. -/
inductive ReadResult where
  | missing
  | decodeFailure (e : Chars)
  | parseFailure (e : Chars)
  | parsed (data : Json)

/-- `get_previous_stats`: decode and parse failures are caught and yield
`none`; a parsed value is returned only when both required keys are
present; the membership test itself can raise, which is not caught. -/
def get_previous_stats : ReadResult → Except Chars (Option Json)
  | .missing => .ok none
  | .decodeFailure _ => .ok none
  | .parseFailure _ => .ok none
  | .parsed data =>
    match pyIn ("m3u8".data) data with
    | .error e => .error e
    | .ok false => .ok none
    | .ok true =>
      match pyIn ("mp4".data) data with
      | .error e => .error e
      | .ok false => .ok none
      | .ok true => .ok (some data)

/-- Line 113 of `process_file`:
`prev_stats = None if force_update else get_previous_stats(file_path)`. -/
def prevForRun (force : Bool) (r : ReadResult) : Except Chars (Option Json) :=
  if force then .ok none else get_previous_stats r

/-! ### Run orchestrator — `process_file` and `main` (lines 103-172) -/

/-- Outcome of reading one file: decoded text, or bytes that neither the
primary (`utf-8`) nor the fallback (`gbk`) encoding can decode. -/
inductive FileContent where
  | decoded (text : Chars)
  | undecodable (err : Chars)

structure FileEntry where
  name : Chars
  content : FileContent

/-- One entry of `results`: the dict built by `process_file`. -/
inductive ProcResult where
  | success (file : Chars) (stats : MediaStats)
  | failed (file : Chars) (err : Chars)

/-- `process_file`: any error raised while handling the file is caught and
turned into a `failed` record; otherwise the counts are returned. -/
def process_file (f : FileEntry) : ProcResult :=
  match f.content with
  | .undecodable e => .failed f.name e
  | .decoded text => .success f.name (count_media_entries text)

/-- The per-file loop of `main` (lines 156-157). -/
def runAll (files : List FileEntry) : List ProcResult :=
  files.map process_file

def isSuccess : ProcResult → Bool
  | .success _ _ => true
  | .failed _ _ => false

/-- The counts of the successful results, `success_files` in `main`. -/
def successStats (rs : List ProcResult) : List MediaStats :=
  rs.filterMap (fun r => match r with
    | .success _ st => some st
    | .failed _ _ => none)

/-- `sum(r['m3u8'] for r in success_files)` (line 164). -/
def totalM3u8 (rs : List ProcResult) : Nat :=
  ((successStats rs).map MediaStats.m3u8).sum

def totalMp4 (rs : List ProcResult) : Nat :=
  ((successStats rs).map MediaStats.mp4).sum

def totalOther (rs : List ProcResult) : Nat :=
  ((successStats rs).map MediaStats.other).sum

/-- The decodable files of a run, with their text. -/
def decodedTexts (files : List FileEntry) : List Chars :=
  files.filterMap (fun f => match f.content with
    | .decoded t => some t
    | .undecodable _ => none)

/-! ### Lemmas about `splitlines` -/

theorem splitlines_lf (rest : Chars) :
    splitlines ('\n' :: rest) = [] :: splitlines rest := by
  rw [splitlines.eq_def]; simp

theorem splitlines_crlf (rest : Chars) :
    splitlines ('\r' :: '\n' :: rest) = [] :: splitlines rest := by
  rw [splitlines.eq_def]; simp

theorem splitlines_cr (c2 : Char) (rest2 : Chars) (h : ¬ c2 = '\n') :
    splitlines ('\r' :: c2 :: rest2) = [] :: splitlines (c2 :: rest2) := by
  rw [splitlines.eq_def]; simp [h]

theorem splitlines_cr_nil : splitlines ['\r'] = [[]] := by
  rw [splitlines.eq_def]; simp

theorem splitlines_other (c : Char) (rest : Chars)
    (h1 : ¬ c = '\n') (h2 : ¬ c = '\r') :
    splitlines (c :: rest) =
      match splitlines rest with
      | [] => [[c]]
      | l :: ls => (c :: l) :: ls := by
  rw [splitlines.eq_def]; simp [h1, h2]

theorem noNL_cons (c : Char) (l : Chars) :
    noNL (c :: l) = ((!(c == '\r') && !(c == '\n')) && noNL l) := by
  simp [noNL, Bool.and_comm]

theorem noNL_append (a b : Chars) : noNL (a ++ b) = (noNL a && noNL b) := by
  simp [noNL, List.all_append]

theorem noNL_of_mem_splitlines (cs : Chars) :
    ∀ l ∈ splitlines cs, noNL l = true := by
  induction cs using splitlines.induct with
  | case1 => intro l hl; simp [splitlines] at hl
  | case2 rest ih =>
    intro l hl
    rw [splitlines_lf, List.mem_cons] at hl
    rcases hl with hl | hl
    · simp [hl, noNL]
    · exact ih l hl
  | case3 h =>
    intro l hl
    rw [splitlines_cr_nil] at hl
    simp at hl
    simp [hl, noNL]
  | case4 rest2 h ih =>
    intro l hl
    rw [splitlines_crlf, List.mem_cons] at hl
    rcases hl with hl | hl
    · simp [hl, noNL]
    · exact ih l hl
  | case5 c2 rest2 hc2 h ih =>
    intro l hl
    rw [splitlines_cr c2 rest2 hc2, List.mem_cons] at hl
    rcases hl with hl | hl
    · simp [hl, noNL]
    · exact ih l hl
  | case6 c rest hc hcr hrest ih =>
    intro l hl
    rw [splitlines_other c rest hc hcr, hrest] at hl
    simp at hl
    subst hl
    simp [noNL, hc, hcr]
  | case7 c rest hc hcr l0 ls0 hrest ih =>
    intro l hl
    rw [splitlines_other c rest hc hcr, hrest, List.mem_cons] at hl
    rcases hl with hl | hl
    · subst hl
      have h0 : noNL l0 = true := ih l0 (by rw [hrest]; exact List.mem_cons_self _ _)
      rw [noNL_cons, h0]
      simp [hc, hcr]
    · exact ih l (by rw [hrest]; exact List.mem_cons_of_mem _ hl)

theorem splitlines_single (l : Chars) (hne : l ≠ []) (hn : noNL l = true) :
    splitlines l = [l] := by
  induction l with
  | nil => exact absurd rfl hne
  | cons c t ih =>
    rw [noNL_cons] at hn
    simp only [Bool.and_eq_true, Bool.not_eq_true', beq_eq_false_iff_ne] at hn
    rw [splitlines_other c t hn.1.2 hn.1.1]
    rcases t with _ | ⟨c2, t2⟩
    · simp [splitlines]
    · rw [ih (by simp) hn.2]

theorem splitlines_append_sep (sep : Chars) (hsep : sep = lf ∨ sep = crlf)
    (l : Chars) (hn : noNL l = true) (cs : Chars) :
    splitlines (l ++ sep ++ cs) = l :: splitlines cs := by
  induction l with
  | nil =>
    rcases hsep with h | h <;> subst h
    · simpa using splitlines_lf cs
    · simpa using splitlines_crlf cs
  | cons c t ih =>
    rw [noNL_cons] at hn
    simp only [Bool.and_eq_true, Bool.not_eq_true', beq_eq_false_iff_ne] at hn
    have : (c :: t) ++ sep ++ cs = c :: (t ++ sep ++ cs) := by simp
    rw [this, splitlines_other c _ hn.1.2 hn.1.1, ih hn.2]

theorem joinSep_cons_ne (sep x : Chars) (rest : List Chars) (h : rest ≠ []) :
    joinSep sep (x :: rest) = x ++ sep ++ joinSep sep rest := by
  rcases rest with _ | ⟨y, ys⟩
  · exact absurd rfl h
  · rfl

theorem joinSep_append (sep : Chars) (A B : List Chars)
    (hA : A ≠ []) (hB : B ≠ []) :
    joinSep sep (A ++ B) = joinSep sep A ++ sep ++ joinSep sep B := by
  induction A with
  | nil => exact absurd rfl hA
  | cons a A ih =>
    rcases A with _ | ⟨a2, A2⟩
    · rw [List.singleton_append, joinSep_cons_ne sep a B hB]
      rfl
    · rw [List.cons_append, joinSep_cons_ne sep a _ (by simp),
        joinSep_cons_ne sep a _ (by simp), ih (by simp)]
      simp [List.append_assoc]

theorem splitlines_joinSep (sep : Chars) (hsep : sep = lf ∨ sep = crlf)
    (bs : List Chars) (b : Chars) (hb : b ≠ [])
    (hn : ∀ l ∈ bs ++ [b], noNL l = true) :
    splitlines (joinSep sep (bs ++ [b])) = bs ++ [b] := by
  induction bs with
  | nil =>
    simp only [List.nil_append]
    rw [show joinSep sep [b] = b from rfl,
      splitlines_single b hb (hn b (by simp))]
  | cons x bs ih =>
    rw [List.cons_append, joinSep_cons_ne sep x _ (by simp),
      splitlines_append_sep sep hsep x (hn x (by simp)),
      ih (fun l hl => hn l (List.mem_cons_of_mem _ hl))]

theorem splitlines_joinSep_trailing (sep : Chars) (hsep : sep = lf ∨ sep = crlf)
    (ls : List Chars) (hne : ls ≠ []) (hn : ∀ l ∈ ls, noNL l = true) :
    splitlines (joinSep sep ls ++ sep) = ls := by
  induction ls with
  | nil => exact absurd rfl hne
  | cons x ls ih =>
    rcases ls with _ | ⟨y, ys⟩
    · rw [show joinSep sep [x] = x from rfl]
      have := splitlines_append_sep sep hsep x (hn x (by simp)) []
      simpa [splitlines] using this
    · rw [joinSep_cons_ne sep x _ (by simp)]
      have : x ++ sep ++ joinSep sep (y :: ys) ++ sep
          = x ++ sep ++ (joinSep sep (y :: ys) ++ sep) := by
        simp [List.append_assoc]
      rw [this, splitlines_append_sep sep hsep x (hn x (by simp)),
        ih (by simp) (fun l hl => hn l (List.mem_cons_of_mem _ hl))]

/-! ### Lemmas about stripping and blank lines -/

theorem dropWhile_concat_ne_nil (xs : Chars) (c : Char) (hc : pyIsSpace c = false) :
    List.dropWhile pyIsSpace (xs ++ [c]) ≠ [] := by
  induction xs with
  | nil => simp [List.dropWhile, hc]
  | cons x xs ih =>
    rw [List.cons_append, List.dropWhile_cons]
    split
    · exact ih
    · simp

theorem isBlank_eq_all (l : Chars) : isBlank l = l.all pyIsSpace := by
  induction l with
  | nil => rfl
  | cons c t ih =>
    by_cases hc : pyIsSpace c = true
    · have h1 : lstrip (c :: t) = lstrip t := by
        simp [lstrip, List.dropWhile_cons, hc]
      rw [show isBlank (c :: t) = (rstrip (lstrip (c :: t))).isEmpty from rfl, h1]
      rw [show (rstrip (lstrip t)).isEmpty = isBlank t from rfl, ih]
      simp [List.all_cons, hc]
    · rw [Bool.not_eq_true] at hc
      have h1 : lstrip (c :: t) = c :: t := by
        simp [lstrip, List.dropWhile_cons, hc]
      have h2 : rstrip (c :: t) ≠ [] := by
        intro h
        have := dropWhile_concat_ne_nil t.reverse c hc
        rw [rstrip, List.reverse_cons] at h
        simp only [List.reverse_eq_nil_iff] at h
        exact this h
      rw [show isBlank (c :: t) = (rstrip (lstrip (c :: t))).isEmpty from rfl, h1]
      rw [List.all_cons, hc]
      simp only [Bool.false_and]
      exact Bool.eq_false_iff.mpr (fun h => h2 (List.isEmpty_iff.mp h))

theorem isBlank_false_of_mem (l : Chars) (c : Char) (hc : c ∈ l)
    (hs : pyIsSpace c = false) : isBlank l = false := by
  rw [isBlank_eq_all]
  exact List.all_eq_false.mpr ⟨c, hc, by simp [hs]⟩

theorem isStatsLine_not_blank (l : Chars) (h : isStatsLine l = true) :
    isBlank l = false := by
  rw [isBlank]
  rcases hstrip : strip l with _ | ⟨c, t⟩
  · rw [isStatsLine, hstrip] at h
    simp [pyStartsWith] at h
  · simp

/-! ### Lemmas about the removal pass -/

theorem removeStatsAux_sublist (skip : Bool) (ls : List Chars) :
    (removeStatsAux skip ls).Sublist ls := by
  induction ls generalizing skip with
  | nil => simp [removeStatsAux]
  | cons l ls ih =>
    rw [removeStatsAux]
    split
    · exact (ih true).cons l
    · split
      · split
        · exact (ih false).cons l
        · exact (ih true).cons l
      · exact (ih skip).cons₂ l

theorem not_statsLine_of_mem_removeAux (skip : Bool) (ls : List Chars)
    (l : Chars) (hl : l ∈ removeStatsAux skip ls) : isStatsLine l = false := by
  induction ls generalizing skip with
  | nil => simp [removeStatsAux] at hl
  | cons x ls ih =>
    rw [removeStatsAux] at hl
    by_cases hx : isStatsLine x = true
    · rw [if_pos hx] at hl
      exact ih true hl
    · rw [Bool.not_eq_true] at hx
      rw [if_neg (by simp [hx])] at hl
      by_cases hskip : skip = true
      · subst hskip
        rw [if_pos rfl] at hl
        split at hl
        · exact ih false hl
        · exact ih true hl
      · rw [Bool.not_eq_true] at hskip
        subst hskip
        rw [if_neg (by simp), List.mem_cons] at hl
        rcases hl with hl | hl
        · subst hl; exact hx
        · exact ih false hl

theorem removeStatsAux_false_id (ls : List Chars)
    (h : ∀ l ∈ ls, isStatsLine l = false) : removeStatsAux false ls = ls := by
  induction ls with
  | nil => rfl
  | cons x ls ih =>
    rw [removeStatsAux, if_neg (by simp [h x (by simp)]), if_neg (by simp)]
    rw [ih (fun l hl => h l (List.mem_cons_of_mem _ hl))]

theorem removeStatsAux_eq_dropHeaderRuns (ls : List Chars) :
    removeStatsAux false ls = dropHeaderRuns ls ∧
    removeStatsAux true ls = dropHeaderRuns (skipRun ls) := by
  induction ls with
  | nil => simp [removeStatsAux, dropHeaderRuns, skipRun]
  | cons l ls ih =>
    constructor
    · by_cases hs : isStatsLine l = true
      · rw [removeStatsAux, if_pos hs, dropHeaderRuns, if_pos hs]
        exact ih.2
      · rw [Bool.not_eq_true] at hs
        rw [removeStatsAux, if_neg (by simp [hs]), if_neg (by simp),
          dropHeaderRuns, if_neg (by simp [hs]), ih.1]
    · by_cases hs : isStatsLine l = true
      · have hb : isBlank l = false := isStatsLine_not_blank l hs
        rw [removeStatsAux, if_pos hs, skipRun, if_neg (by simp [hb])]
        exact ih.2
      · rw [Bool.not_eq_true] at hs
        rw [removeStatsAux, if_neg (by simp [hs]), if_pos rfl, skipRun]
        by_cases hb : isBlank l = true
        · rw [if_pos hb, if_pos hb]
          exact ih.1
        · rw [Bool.not_eq_true] at hb
          rw [if_neg (by simp [hb]), if_neg (by simp [hb])]
          exact ih.2

/-- Skipping runs through a block of non-blank lines followed by one blank
line, then resumes normal scanning. -/
theorem removeStatsAux_skip_through (ms : List Chars)
    (h : ∀ l ∈ ms, isBlank l = false) (rest : List Chars) :
    removeStatsAux true (ms ++ [] :: rest) = removeStatsAux false rest := by
  induction ms with
  | nil =>
    rw [List.nil_append, removeStatsAux,
      if_neg (by simp [isStatsLine, strip, lstrip, rstrip, pyStartsWith]),
      if_pos rfl, if_pos (by simp [isBlank, strip, lstrip, rstrip])]
  | cons m ms ih =>
    rw [List.cons_append, removeStatsAux]
    have hb : isBlank m = false := h m (by simp)
    by_cases hs : isStatsLine m = true
    · rw [if_pos hs]
      exact ih (fun l hl => h l (List.mem_cons_of_mem _ hl))
    · rw [Bool.not_eq_true] at hs
      rw [if_neg (by simp [hs]), if_pos rfl, if_neg (by simp [hb])]
      exact ih (fun l hl => h l (List.mem_cons_of_mem _ hl))

/-! ### Lemmas about the classifier -/

theorem classifyLine_isSome (l : Chars) :
    (classifyLine l).isSome = countedLine l := by
  rw [classifyLine, countedLine]
  by_cases h : ((strip l).isEmpty || pyStartsWith ['#'] (strip l)) = true
  · simp only [h, if_pos rfl]
    rfl
  · rw [Bool.not_eq_true] at h
    simp only [h, Bool.false_eq_true, if_false, Bool.not_false]
    split
    · rfl
    · split
      · rfl
      · rfl

theorem total_foldl_count (ls : List Chars) (init : MediaStats) :
    (ls.foldl (fun st line => bump st (classifyLine line)) init).m3u8
      + (ls.foldl (fun st line => bump st (classifyLine line)) init).mp4
      + (ls.foldl (fun st line => bump st (classifyLine line)) init).other
    = init.m3u8 + init.mp4 + init.other + (ls.filter countedLine).length := by
  induction ls generalizing init with
  | nil => simp
  | cons l ls ih =>
    rw [List.foldl_cons, ih (bump init (classifyLine l)), List.filter_cons]
    have hsome := classifyLine_isSome l
    rcases hc : classifyLine l with _ | cat
    · rw [hc] at hsome
      rw [← hsome]
      simp [bump]
    · rw [hc] at hsome
      rw [← hsome]
      simp only [Option.isSome_some, if_pos]
      rcases cat with _ | _ | _ <;> simp [bump] <;> omega

/-- C2: the removal pass drops exactly the sentinel-started runs (each up
to and including the next blank line or end of content), and every other
line survives unchanged and in order. -/
theorem c2_removal_frame (content : Chars) :
    removeStats (splitlines content) = dropHeaderRuns (splitlines content) ∧
    (removeStats (splitlines content)).Sublist (splitlines content) :=
  ⟨(removeStatsAux_eq_dropHeaderRuns (splitlines content)).1,
    removeStatsAux_sublist false (splitlines content)⟩

/-- C4: the three classifier counters sum to the number of lines that are
non-blank after trimming and do not start with the comment sentinel. -/
theorem c4_classifier_sum (content : Chars) :
    (count_media_entries content).m3u8 + (count_media_entries content).mp4
      + (count_media_entries content).other
    = ((splitlines content).filter countedLine).length := by
  rw [count_media_entries]
  rw [total_foldl_count (splitlines content) ⟨0, 0, 0⟩]
  simp

/-- C6: boundary-anchored, case-insensitive classification: `.m3u8` before
`?` matches, `.mp4` at end of line matches, `.m3u8abc` does not match any
extension and falls to `other`, and `.M3U8` matches case-insensitively. -/
theorem c6_classification_boundaries :
    classifyLine ("https://x.com/a.m3u8?token=1".data) = some MediaCat.m3u8 ∧
    classifyLine ("https://x.com/a.mp4".data) = some MediaCat.mp4 ∧
    classifyLine ("https://x.com/a.m3u8abc".data) = some MediaCat.other ∧
    classifyLine ("https://x.com/a.M3U8".data) = some MediaCat.m3u8 := by
  refine ⟨?_, ?_, ?_, ?_⟩ <;> decide

/-! ### Lemmas about decimal rendering and delta formatting -/

theorem digitChar_noNL (d : Nat) :
    (!(digitChar d == '\r') && !(digitChar d == '\n')) = true := by
  rw [digitChar]
  repeat' split
  all_goals decide

theorem noNL_natStrAux (fuel : Nat) : ∀ (n : Nat) (acc : Chars),
    noNL acc = true → noNL (natStrAux fuel n acc) = true := by
  induction fuel with
  | zero => intro n acc h; exact h
  | succ fuel ih =>
    intro n acc h
    rw [natStrAux]
    split
    · rw [noNL_cons, digitChar_noNL, h]
      rfl
    · exact ih _ _ (by rw [noNL_cons, digitChar_noNL, h]; rfl)

theorem noNL_natStr (n : Nat) : noNL (natStr n) = true :=
  noNL_natStrAux _ _ _ rfl

theorem noNL_intStr (i : Int) : noNL (intStr i) = true := by
  rw [intStr]
  split
  · rw [noNL_cons, noNL_natStr]
    decide
  · exact noNL_natStr _

theorem noNL_format_change (c : Int) : noNL (format_change c) = true := by
  rw [format_change]
  split
  · rw [noNL_cons, noNL_intStr]
    decide
  · split
    · exact noNL_intStr _
    · decide

theorem noNL_statsLines (cur : MediaStats) (prev : Option PrevCounts)
    (t : Chars) (ht : noNL t = true) :
    ∀ l ∈ statsLines cur prev t, noNL l = true := by
  intro l hl
  rw [statsLines] at hl
  simp only [List.mem_cons, List.not_mem_nil, or_false] at hl
  rcases hl with h | h | h | h | h | h
  · subst h; decide
  · subst h
    simp only [noNL_append, ht]
    decide
  · subst h
    simp only [noNL_append, noNL_natStr, noNL_format_change]
    decide
  · subst h
    simp only [noNL_append, noNL_natStr, noNL_format_change]
    decide
  · subst h; decide
  · subst h; decide

/-! ### C1: change literal without a previous snapshot -/

/-- C1 counterexample: with no prior snapshot the category header lines
render the Change value as the numeric literal `0`, not as `N/A`. -/
theorem c1_counterexample :
    (statsLines ⟨5, 3, 2⟩ none ("2025-01-01 00:00:00".data))[2]?
        = some ("# M3U8: 5 (Change: 0)".data) ∧
    (statsLines ⟨5, 3, 2⟩ none ("2025-01-01 00:00:00".data))[3]?
        = some ("# MP4: 3 (Change: 0)".data) ∧
    containsSeq ("N/A".data) ("# M3U8: 5 (Change: 0)".data) = false := by
  refine ⟨?_, ?_, ?_⟩ <;> decide

/-- C1 (amended): when no previous snapshot is available — absent or
invalid snapshot, or force-update mode, all of which reach the header
writer as an absent snapshot — every category Change renders as the
neutral literal `0` (the same literal as a zero delta), not as `N/A`;
force-update bypasses the snapshot read entirely. -/
theorem c1_no_snapshot_change_literal (cur : MediaStats) (ts : Chars) :
    (statsLines cur none ts)[2]?
        = some ("# M3U8: ".data ++ natStr cur.m3u8
            ++ " (Change: ".data ++ "0".data ++ [')']) ∧
    (statsLines cur none ts)[3]?
        = some ("# MP4: ".data ++ natStr cur.mp4
            ++ " (Change: ".data ++ "0".data ++ [')']) ∧
    (∀ r, prevForRun true r = Except.ok none) := by
  refine ⟨rfl, rfl, fun r => rfl⟩

/-! ### C7: delta computation and sign formatting -/

/-- C7: previous counts `{m3u8: 10, mp4: 2}` against current
`{m3u8: 12, mp4: 2}` render as `+2` and `0`; in general a positive delta
gets an explicit leading `+`, a negative its natural `-`, zero the
literal `0`. -/
theorem c7_delta_formatting (ts : Chars) :
    (statsLines ⟨12, 2, 0⟩ (some ⟨10, 2⟩) ts)[2]?
        = some ("# M3U8: 12 (Change: +2)".data) ∧
    (statsLines ⟨12, 2, 0⟩ (some ⟨10, 2⟩) ts)[3]?
        = some ("# MP4: 2 (Change: 0)".data) ∧
    (∀ c : Int,
      (0 < c → format_change c = '+' :: natStr c.natAbs) ∧
      (c < 0 → format_change c = '-' :: natStr c.natAbs) ∧
      (c = 0 → format_change c = ['0'])) := by
  refine ⟨rfl, rfl, fun c => ⟨?_, ?_, ?_⟩⟩
  · intro hc
    rw [format_change, if_pos hc, intStr, if_neg (by omega)]
  · intro hc
    rw [format_change, if_neg (by omega), if_pos hc, intStr, if_pos hc]
  · intro hc
    subst hc
    rfl

/-- C7 witness: the sign-formatting clauses applied at `+2`, `-1`, `0`. -/
theorem c7_delta_formatting_witness :
    (0 < (2 : Int) ∧ format_change 2 = '+' :: natStr (2 : Int).natAbs) ∧
    ((-1 : Int) < 0 ∧ format_change (-1) = '-' :: natStr (-1 : Int).natAbs) ∧
    format_change 0 = ['0'] :=
  ⟨⟨by decide, ((c7_delta_formatting []).2.2 2).1 (by decide)⟩,
   ⟨by decide, ((c7_delta_formatting []).2.2 (-1)).2.1 (by decide)⟩,
   ((c7_delta_formatting []).2.2 0).2.2 rfl⟩

/-! ### C5: newline-style preservation -/

theorem noNL_of_mem_removeStats (content : Chars) (l : Chars)
    (hl : l ∈ removeStats (splitlines content)) : noNL l = true :=
  noNL_of_mem_splitlines content l
    ((removeStatsAux_sublist false (splitlines content)).subset hl)

/-- C5: the rewritten content is exactly the rendered lines joined with a
single separator — CRLF when the original content contains a CRLF
anywhere, LF otherwise, detected from the original content — and no line
holds a stray CR or LF, so the chosen separator is used throughout the
new header and the body. -/
theorem c5_newline_style (content : Chars) (cur : MediaStats)
    (prev : Option PrevCounts) (t : Chars) (ht : noNL t = true) :
    (∀ l ∈ renderedLines content cur prev t, noNL l = true) ∧
    detectNewline content = (if containsSeq crlf content then crlf else lf) ∧
    update_file_header content cur prev t
      = joinSep (detectNewline content) (renderedLines content cur prev t) := by
  refine ⟨?_, rfl, ?_⟩
  · intro l hl
    rw [renderedLines, List.mem_append] at hl
    rcases hl with hl | hl
    · exact noNL_statsLines cur prev t ht l hl
    · split at hl
      · simp at hl
        subst hl
        rfl
      · exact noNL_of_mem_removeStats content l hl
  · rw [update_file_header, renderedLines]
    rcases hbody : removeStats (splitlines content) with _ | ⟨b, bs⟩
    · have h1 : (if ([] : List Chars).isEmpty = true then [([] : Chars)] else []) = [[]] := by
        simp
      rw [h1, joinSep_append _ _ _ (by simp [statsLines]) (by simp)]
      rfl
    · have h1 : (if (b :: bs).isEmpty = true then [([] : Chars)] else b :: bs) = b :: bs := by
        simp
      rw [h1, joinSep_append _ _ _ (by simp [statsLines]) (by simp)]

/-- C5 witness: a CRLF input, rewritten with a concrete timestamp. -/
theorem c5_newline_style_witness :
    noNL ("2025-06-01 12:00:00".data) = true ∧
    update_file_header ("a\r\nb".data) ⟨0, 0, 2⟩ none ("2025-06-01 12:00:00".data)
      = joinSep (detectNewline ("a\r\nb".data))
          (renderedLines ("a\r\nb".data) ⟨0, 0, 2⟩ none ("2025-06-01 12:00:00".data)) :=
  ⟨by decide,
   (c5_newline_style ("a\r\nb".data) ⟨0, 0, 2⟩ none ("2025-06-01 12:00:00".data)
     (by decide)).2.2⟩

/-! ### Lemmas about substring containment and newline detection -/

theorem pyStartsWith_self_append (p z : Chars) :
    pyStartsWith p (p ++ z) = true := by
  induction p with
  | nil => rfl
  | cons c p ih => simp [pyStartsWith, ih]

theorem containsSeq_of_startsWith (n hay : Chars)
    (h : pyStartsWith n hay = true) : containsSeq n hay = true := by
  rcases hay with _ | ⟨c, rest⟩
  · exact h
  · rw [containsSeq, h]
    rfl

theorem containsSeq_cons_of (n : Chars) (c : Char) (rest : Chars)
    (h : containsSeq n rest = true) : containsSeq n (c :: rest) = true := by
  rw [containsSeq, h]
  simp

theorem containsSeq_append_mid (n x y : Chars) :
    containsSeq n (x ++ (n ++ y)) = true := by
  induction x with
  | nil => exact containsSeq_of_startsWith n _ (pyStartsWith_self_append n y)
  | cons c x ih => exact containsSeq_cons_of n c _ ih

theorem not_cr_of_noNL (l : Chars) (h : noNL l = true) : '\r' ∉ l := by
  intro hmem
  have := List.all_eq_true.mp h '\r' hmem
  simp at this

theorem containsSeq_crlf_false (xs : Chars) (h : '\r' ∉ xs) :
    containsSeq crlf xs = false := by
  induction xs with
  | nil => rfl
  | cons c rest ih =>
    rw [containsSeq]
    have hc : ¬ c = '\r' := fun hh => h (hh ▸ List.mem_cons_self c rest)
    have h1 : pyStartsWith crlf (c :: rest) = false := by
      rw [crlf, pyStartsWith]
      have : ('\r' == c) = false := by
        simp only [beq_eq_false_iff_ne, ne_eq]
        exact fun hh => hc hh.symm
      rw [this, Bool.false_and]
    rw [h1, ih (fun hm => h (List.mem_cons_of_mem c hm))]
    rfl

theorem mem_joinSep (sep : Chars) (ls : List Chars) (c : Char)
    (h : c ∈ joinSep sep ls) : (∃ l ∈ ls, c ∈ l) ∨ c ∈ sep := by
  induction ls with
  | nil => simp [joinSep] at h
  | cons l ls ih =>
    rcases ls with _ | ⟨l2, ls2⟩
    · exact Or.inl ⟨l, by simp, h⟩
    · rw [joinSep_cons_ne sep l _ (by simp), List.mem_append, List.mem_append] at h
      rcases h with (h | h) | h
      · exact Or.inl ⟨l, by simp, h⟩
      · exact Or.inr h
      · rcases ih h with ⟨l3, hl3, hc3⟩ | h
        · exact Or.inl ⟨l3, List.mem_cons_of_mem _ hl3, hc3⟩
        · exact Or.inr h

theorem detectNewline_cases (content : Chars) :
    detectNewline content = lf ∨ detectNewline content = crlf := by
  rw [detectNewline]
  split
  · exact Or.inr rfl
  · exact Or.inl rfl

/-- The rewritten content detects the same newline style as the original:
the header and separators reuse the detected style, and when the original
had no CRLF the rewrite introduces no carriage return at all. -/
theorem detectNewline_update (content : Chars) (cur : MediaStats)
    (prev : Option PrevCounts) (t : Chars) (ht : noNL t = true) :
    detectNewline (update_file_header content cur prev t)
      = detectNewline content := by
  by_cases h : containsSeq crlf content = true
  · have hnl : detectNewline content = crlf := by rw [detectNewline, if_pos h]
    rw [update_file_header]
    simp only [hnl]
    have : joinSep crlf (statsLines cur prev t) ++ crlf
          ++ joinSep crlf (removeStats (splitlines content))
        = joinSep crlf (statsLines cur prev t)
          ++ (crlf ++ joinSep crlf (removeStats (splitlines content))) := by
      simp [List.append_assoc]
    rw [this, detectNewline, if_pos (containsSeq_append_mid crlf _ _)]
  · rw [Bool.not_eq_true] at h
    have hnl : detectNewline content = lf := by
      rw [detectNewline, h]
      simp
    rw [update_file_header]
    simp only [hnl]
    have hnocr : '\r' ∉ joinSep lf (statsLines cur prev t) ++ lf
        ++ joinSep lf (removeStats (splitlines content)) := by
      intro hmem
      rw [List.mem_append, List.mem_append] at hmem
      rcases hmem with (hmem | hmem) | hmem
      · rcases mem_joinSep lf _ _ hmem with ⟨l, hl, hc⟩ | hc
        · exact not_cr_of_noNL l (noNL_statsLines cur prev t ht l hl) hc
        · simp [lf] at hc
      · simp [lf] at hmem
      · rcases mem_joinSep lf _ _ hmem with ⟨l, hl, hc⟩ | hc
        · exact not_cr_of_noNL l (noNL_of_mem_removeStats content l hl) hc
        · simp [lf] at hc
    rw [detectNewline, containsSeq_crlf_false _ hnocr]
    simp

/-! ### C3: idempotence of the header rewrite -/

/-- Splitting the rewritten content recovers the header block followed by
the retained body, provided the body does not end in an empty line (a
trailing empty line is lost because the join adds no trailing
terminator). -/
theorem splitlines_update (content : Chars) (cur : MediaStats)
    (prev : Option PrevCounts) (t : Chars) (ht : noNL t = true)
    (hlast : lastLineOk (removeStats (splitlines content)) = true) :
    splitlines (update_file_header content cur prev t)
      = statsLines cur prev t ++ removeStats (splitlines content) := by
  have hsep := detectNewline_cases content
  rcases List.eq_nil_or_concat (removeStats (splitlines content)) with hbody | ⟨bs, b, hbody⟩
  · rw [update_file_header]
    rw [hbody]
    rw [show joinSep (detectNewline content) [] = [] from rfl, List.append_nil]
    rw [splitlines_joinSep_trailing (detectNewline content) hsep
      (statsLines cur prev t) (by simp [statsLines])
      (noNL_statsLines cur prev t ht)]
    rw [List.append_nil]
  · rw [List.concat_eq_append] at hbody
    have hb : b ≠ [] := by
      rw [lastLineOk, hbody, List.getLast?_concat] at hlast
      simp only [Bool.not_eq_true'] at hlast
      exact fun hh => by simp [hh] at hlast
    rw [update_file_header]
    rw [hbody]
    rw [← joinSep_append (detectNewline content) _ _ (by simp [statsLines]) (by simp)]
    have hassoc : statsLines cur prev t ++ (bs ++ [b])
        = (statsLines cur prev t ++ bs) ++ [b] := by
      simp [List.append_assoc]
    rw [hassoc]
    rw [splitlines_joinSep (detectNewline content) hsep _ b hb]
    intro l hl
    rw [List.append_assoc, List.mem_append] at hl
    rcases hl with hl | hl
    · exact noNL_statsLines cur prev t ht l hl
    · refine noNL_of_mem_removeStats content l ?_
      rw [hbody]
      exact hl

/-- The removal pass applied to a fresh header block followed by a
sentinel-free body drops exactly the header block. -/
theorem removeStats_statsLines_append (cur : MediaStats)
    (prev : Option PrevCounts) (t : Chars) (body : List Chars)
    (hb : ∀ l ∈ body, isStatsLine l = false) :
    removeStats (statsLines cur prev t ++ body) = body := by
  have hshape : statsLines cur prev t ++ body
      = ("# STATS: Media Links Summary".data)
        :: (["# Updated: ".data ++ t ++ " (UTC+8)".data,
             "# M3U8: ".data ++ natStr cur.m3u8 ++ " (Change: ".data
               ++ format_change (changeM3u8 cur prev) ++ [')'],
             "# MP4: ".data ++ natStr cur.mp4 ++ " (Change: ".data
               ++ format_change (changeMp4 cur prev) ++ [')'],
             '#' :: List.replicate 50 '='] ++ [] :: body) := by
    simp [statsLines]
  rw [hshape, removeStats, removeStatsAux, if_pos (by decide)]
  rw [removeStatsAux_skip_through _ ?_ body]
  · exact removeStatsAux_false_id body hb
  · intro l hl
    simp only [List.mem_cons, List.not_mem_nil, or_false] at hl
    have hhash : pyIsSpace '#' = false := by decide
    rcases hl with h | h | h | h
    · subst h
      exact isBlank_false_of_mem _ '#' (by simp) hhash
    · subst h
      exact isBlank_false_of_mem _ '#' (by simp) hhash
    · subst h
      exact isBlank_false_of_mem _ '#' (by simp) hhash
    · subst h
      exact isBlank_false_of_mem _ '#' (List.mem_cons_self _ _) hhash

/-- C3 counterexample: for content ending in a blank line the body is not
stable under a second rewrite — the first pass keeps the trailing empty
line (body `x\n`), the second pass loses it (body `x`), so the non-header
body after the second rewrite is not byte-identical to the body produced
by the first rewrite. -/
theorem c3_counterexample :
    joinSep
        (detectNewline
          (update_file_header ("x\n\n".data) ⟨1, 0, 0⟩ none
            ("2025-01-01 00:00:00".data)))
        (removeStats (splitlines
          (update_file_header ("x\n\n".data) ⟨1, 0, 0⟩ none
            ("2025-01-01 00:00:00".data))))
      ≠ joinSep (detectNewline ("x\n\n".data))
          (removeStats (splitlines ("x\n\n".data))) := by
  decide

/-- C3 (amended): when the retained body does not end in an empty line
(the content does not end in a blank line surviving removal), a second
rewrite with the same counts and snapshot is a perfect fixpoint modulo
the timestamp: it equals a single rewrite of the original content with
the new timestamp, and the two header blocks agree on every line except
the timestamp line (index 1). -/
theorem c3_idempotent_modulo_timestamp (content : Chars) (cur : MediaStats)
    (prev : Option PrevCounts) (t1 t2 : Chars) (ht1 : noNL t1 = true)
    (hlast : lastLineOk (removeStats (splitlines content)) = true) :
    update_file_header (update_file_header content cur prev t1) cur prev t2
      = update_file_header content cur prev t2 ∧
    (∀ i : Nat, i ≠ 1 →
      (statsLines cur prev t1)[i]? = (statsLines cur prev t2)[i]?) := by
  constructor
  · have hsplit := splitlines_update content cur prev t1 ht1 hlast
    have hdet := detectNewline_update content cur prev t1 ht1
    have hbody : ∀ l ∈ removeStats (splitlines content), isStatsLine l = false :=
      fun l hl => not_statsLine_of_mem_removeAux false _ l hl
    conv_lhs => rw [update_file_header]
    rw [hsplit, hdet, removeStats_statsLines_append cur prev t1 _ hbody]
    rfl
  · intro i hi
    match i with
    | 0 => rfl
    | 1 => exact absurd rfl hi
    | 2 => rfl
    | 3 => rfl
    | 4 => rfl
    | 5 => rfl
    | n + 6 => simp [statsLines]

/-- C3 witness: a CRLF file whose body ends in a non-empty line. -/
theorem c3_idempotent_witness :
    noNL ("2025-01-01 00:00:00".data) = true ∧
    lastLineOk (removeStats (splitlines ("a\r\nb".data))) = true ∧
    update_file_header
        (update_file_header ("a\r\nb".data) ⟨0, 0, 2⟩ none
          ("2025-01-01 00:00:00".data))
        ⟨0, 0, 2⟩ none ("2025-01-02 03:04:05".data)
      = update_file_header ("a\r\nb".data) ⟨0, 0, 2⟩ none
          ("2025-01-02 03:04:05".data) :=
  ⟨by decide, by decide,
   (c3_idempotent_modulo_timestamp ("a\r\nb".data) ⟨0, 0, 2⟩ none
     ("2025-01-01 00:00:00".data) ("2025-01-02 03:04:05".data)
     (by decide) (by decide)).1⟩

/-! ### C10: no trailing line terminator is re-appended -/

theorem mem_of_getLast?_eq (l : Chars) (a : Char) (h : l.getLast? = some a) :
    a ∈ l := by
  have hx : a ∈ l.getLast? := h
  rcases List.mem_getLast?_eq_getLast hx with ⟨hne, heq⟩
  rw [heq]
  exact List.getLast_mem hne

theorem joinSep_concat_getLast (sep : Chars) (bs : List Chars) (b : Chars)
    (hb : b ≠ []) : (joinSep sep (bs ++ [b])).getLast? = b.getLast? := by
  induction bs with
  | nil => rfl
  | cons x bs ih =>
    rw [List.cons_append, joinSep_cons_ne sep x _ (by simp)]
    rw [List.getLast?_append, ih]
    exact Option.or_of_isSome (by rw [← ih]; rw [ih]; exact List.getLast?_isSome.mpr hb)

/-- C10 counterexample: content ending in a newline whose rewritten output
still ends in a newline — `"x\n\n"` ends with `\n`, and so does its
rewrite, because the body retained after header removal ends in an empty
line. -/
theorem c10_counterexample :
    ("x\n\n".data).getLast? = some '\n' ∧
    (update_file_header ("x\n\n".data) ⟨1, 0, 0⟩ none
        ("2025-01-01 00:00:00".data)).getLast? = some '\n' := by
  exact ⟨rfl, by decide⟩

/-- C10 (amended): the rewrite joins the split lines and never re-appends
a final separator, so whenever the retained body ends in a non-empty line
the output ends with that line's final character, which is not a line
terminator; in particular a single trailing newline after a non-empty
final line is dropped.  (When the body ends in an empty line, the
separator before it becomes the last character of the output.) -/
theorem c10_no_trailing_terminator (content : Chars) (cur : MediaStats)
    (prev : Option PrevCounts) (t : Chars) (bs : List Chars) (b : Chars)
    (hbody : removeStats (splitlines content) = bs ++ [b]) (hb : b ≠ []) :
    (update_file_header content cur prev t).getLast? = b.getLast? ∧
    (∀ c : Char, b.getLast? = some c → ¬ c = '\n' ∧ ¬ c = '\r') := by
  constructor
  · rw [update_file_header, hbody]
    rw [List.getLast?_append, joinSep_concat_getLast _ _ _ hb]
    exact Option.or_of_isSome (List.getLast?_isSome.mpr hb)
  · intro c hc
    have hbmem : b ∈ removeStats (splitlines content) := by
      rw [hbody]
      exact List.mem_append_right bs (by simp)
    have hnn := noNL_of_mem_removeStats content b hbmem
    have hcb : c ∈ b := mem_of_getLast?_eq b c hc
    have := List.all_eq_true.mp hnn c hcb
    simp only [Bool.and_eq_true, Bool.not_eq_true', beq_eq_false_iff_ne, ne_eq] at this
    exact ⟨this.2, this.1⟩

/-- C10 witness: a file ending in a single newline after a non-empty line
loses that newline in the rewritten output. -/
theorem c10_no_trailing_terminator_witness :
    removeStats (splitlines ("x\n".data)) = [] ++ [['x']] ∧
    (['x'] : Chars) ≠ [] ∧
    (update_file_header ("x\n".data) ⟨0, 0, 1⟩ none
        ("2025-01-01 00:00:00".data)).getLast? = (['x'] : Chars).getLast? :=
  ⟨by decide, by decide,
   (c10_no_trailing_terminator ("x\n".data) ⟨0, 0, 1⟩ none
     ("2025-01-01 00:00:00".data) [] ['x'] (by decide) (by decide)).1⟩

/-! ### C8: soft-failing snapshot read -/

/-- C8 counterexample: a snapshot file holding the valid JSON value `42`
parses fine but is not a container, so the key-membership test raises a
`TypeError` that `get_previous_stats` does not catch — the error
propagates to the caller instead of yielding `None`. -/
theorem c8_counterexample :
    get_previous_stats (ReadResult.parsed (Json.num 42))
      = Except.error typeErrMsg := rfl

/-- C8 (amended): the snapshot read returns `None` when the snapshot file
is missing, fails to decode, fails to parse as JSON, or parses to a JSON
object lacking a required category key; but when it parses to a
non-container JSON value (number, boolean, null) the key-membership test
raises a `TypeError` that is not caught locally and propagates to the
caller. -/
theorem c8_snapshot_read_soft (e : Chars) (entries : List (Chars × Json)) :
    get_previous_stats ReadResult.missing = Except.ok none ∧
    get_previous_stats (ReadResult.decodeFailure e) = Except.ok none ∧
    get_previous_stats (ReadResult.parseFailure e) = Except.ok none ∧
    (entries.any (fun kv => kv.1 == "m3u8".data) = false →
      get_previous_stats (ReadResult.parsed (Json.obj entries))
        = Except.ok none) ∧
    (entries.any (fun kv => kv.1 == "mp4".data) = false →
      get_previous_stats (ReadResult.parsed (Json.obj entries))
        = Except.ok none) ∧
    (∀ n : Int, get_previous_stats (ReadResult.parsed (Json.num n))
        = Except.error typeErrMsg) := by
  refine ⟨rfl, rfl, rfl, ?_, ?_, fun n => rfl⟩
  · intro h
    rw [get_previous_stats, pyIn, h]
  · intro h
    rw [get_previous_stats]
    rw [show pyIn ("mp4".data) (Json.obj entries)
        = Except.ok (entries.any (fun kv => kv.1 == "mp4".data)) from rfl, h]
    rcases hm : pyIn ("m3u8".data) (Json.obj entries) with e1 | b1
    · simp [pyIn] at hm
    · rcases b1 with _ | _
      · rfl
      · rfl

/-- C8 witness: soft returns applied at concrete inputs — a missing file
and a parsed empty JSON object. -/
theorem c8_snapshot_read_soft_witness :
    ([] : List (Chars × Json)).any (fun kv => kv.1 == "m3u8".data) = false ∧
    get_previous_stats (ReadResult.parsed (Json.obj [])) = Except.ok none ∧
    get_previous_stats ReadResult.missing = Except.ok none :=
  ⟨rfl, (c8_snapshot_read_soft [] []).2.2.2.1 rfl, (c8_snapshot_read_soft [] []).1⟩

/-! ### C9: per-file failure isolation and aggregation -/

theorem successStats_runAll (files : List FileEntry) :
    successStats (runAll files) = (decodedTexts files).map count_media_entries := by
  induction files with
  | nil => rfl
  | cons f fs ih =>
    rcases hf : f.content with t | e
    · rw [runAll, List.map_cons, show process_file f
          = ProcResult.success f.name (count_media_entries t) by
            rw [process_file, hf]]
      rw [successStats, List.filterMap_cons]
      rw [show decodedTexts (f :: fs)
          = t :: decodedTexts fs by rw [decodedTexts, List.filterMap_cons, hf]; rfl]
      rw [List.map_cons]
      exact congrArg _ ih
    · rw [runAll, List.map_cons, show process_file f = ProcResult.failed f.name e by
        rw [process_file, hf]]
      rw [successStats, List.filterMap_cons]
      rw [show decodedTexts (f :: fs) = decodedTexts fs by
        rw [decodedTexts, List.filterMap_cons, hf]; rfl]
      exact ih

/-- C9: processing never aborts (one result per file), an undecodable file
is recorded as a failure with its message, and each aggregate total sums
the counts of exactly the decodable files, excluding every failed one. -/
theorem c9_failure_isolation (files : List FileEntry) :
    (runAll files).length = files.length ∧
    (∀ f ∈ files, ∀ e : Chars, f.content = FileContent.undecodable e →
      ProcResult.failed f.name e ∈ runAll files) ∧
    totalM3u8 (runAll files)
      = ((decodedTexts files).map (fun t => (count_media_entries t).m3u8)).sum ∧
    totalMp4 (runAll files)
      = ((decodedTexts files).map (fun t => (count_media_entries t).mp4)).sum ∧
    totalOther (runAll files)
      = ((decodedTexts files).map (fun t => (count_media_entries t).other)).sum := by
  refine ⟨List.length_map files process_file, ?_, ?_, ?_, ?_⟩
  · intro f hf e he
    have : process_file f = ProcResult.failed f.name e := by
      rw [process_file, he]
    rw [← this]
    exact List.mem_map_of_mem process_file hf
  · rw [totalM3u8, successStats_runAll, List.map_map]
    rfl
  · rw [totalMp4, successStats_runAll, List.map_map]
    rfl
  · rw [totalOther, successStats_runAll, List.map_map]
    rfl

/-- C9 witness: three files, the middle one undecodable — its failure is
recorded and the m3u8 total sums only the two decodable files. -/
theorem c9_failure_isolation_witness :
    ProcResult.failed ("b.m3u".data) ("boom".data) ∈ runAll
      [⟨"a.m3u".data, FileContent.decoded ("u1.m3u8\n".data)⟩,
       ⟨"b.m3u".data, FileContent.undecodable ("boom".data)⟩,
       ⟨"c.m3u".data, FileContent.decoded ("u2.mp4\n".data)⟩] ∧
    totalM3u8 (runAll
      [⟨"a.m3u".data, FileContent.decoded ("u1.m3u8\n".data)⟩,
       ⟨"b.m3u".data, FileContent.undecodable ("boom".data)⟩,
       ⟨"c.m3u".data, FileContent.decoded ("u2.mp4\n".data)⟩])
      = ((decodedTexts
          [⟨"a.m3u".data, FileContent.decoded ("u1.m3u8\n".data)⟩,
           ⟨"b.m3u".data, FileContent.undecodable ("boom".data)⟩,
           ⟨"c.m3u".data, FileContent.decoded ("u2.mp4\n".data)⟩]).map
          (fun t => (count_media_entries t).m3u8)).sum :=
  ⟨(c9_failure_isolation _).2.1 _
      (List.mem_cons_of_mem _ (List.mem_cons_self _ _)) _ rfl,
   (c9_failure_isolation _).2.2.1⟩

end Crshow
